import Mathlib

/-!
# Verification of the HDFS folder-size exporter (`src/main.py`)

The program walks a directory tree on HDFS (observed only through
`client.list`), computes aggregate byte sizes per subfolder, and pushes the
readings to a Prometheus Pushgateway.  We embed the tree as it is observable
through the listing client: a directory either fails to list (`dirFail`) or
yields its list of `(name, status)` children (`dirOk`); a non-directory entry
carries its `length` field (`file`).
-/

namespace DiskUsage

/-- A node of the HDFS tree as observed through `client.list`:
`file length` is a non-DIRECTORY entry with its reported byte length;
`dirFail` is a DIRECTORY whose listing raises; `dirOk statuses` is a
DIRECTORY whose listing returns the `(name, item)` pairs `statuses`. -/
inductive FsNode : Type where
  | file (length : Nat) : FsNode
  | dirFail : FsNode
  | dirOk (statuses : List (String × FsNode)) : FsNode

/-- Whether `item["type"] == "DIRECTORY"` for an entry. -/
def FsNode.isDir : FsNode → Bool
  | .file _ => false
  | .dirFail => true
  | .dirOk _ => true

/-- The byte length reported for a non-DIRECTORY entry (`none` for
DIRECTORY entries). -/
def fileTag : FsNode → Option Nat
  | .file length => some length
  | _ => none

/-- Whether a node is a DIRECTORY whose listing raises. -/
def isFailedDir : FsNode → Bool
  | .dirFail => true
  | _ => false

/-- Model of `rel_path.replace("\\", "/")` on one path component. -/
def normSlash (s : String) : String :=
  String.mk (s.data.map fun c => if c = '\\' then '/' else c)

/-- Lines 78–82 of `src/main.py`: `os.path.relpath(path, base_path)` of the
visited path (given here by its component list relative to the start path,
since the walk always extends `path` by `f"{path}/{name}"`), backslashes
replaced by forward slashes, `"."` mapped to `"/"`, otherwise prefixed
with `"/"`. -/
def relLabel (comps : List String) : String :=
  if comps = [] then "/" else "/" ++ String.intercalate "/" (comps.map normSlash)

mutual

/-- Lines 60–89 of `src/main.py` (`list_dirs_recursive`).  The first
component is the returned `total_size`; the second is the sequence of
`file_size_metric.labels(folder=rel_path).set(total_size)` calls performed,
in order.  A listing failure (`dirFail`) returns `0` *before* any metric is
recorded.  The function is only ever invoked on DIRECTORY entries; the
`file` case is unreachable. -/
def list_dirs_recursive : FsNode → List String → Nat × List (String × Nat)
  | .file _, _ => (0, [])
  | .dirFail, _ => (0, [])
  | .dirOk statuses, comps =>
    let r := walkStatuses statuses comps
    (r.1, r.2 ++ [(relLabel comps, r.1)])

/-- The `for name, item in statuses` loop of lines 69–76: DIRECTORY entries
recurse at `comps ++ [name]`, other entries contribute `item["length"]`. -/
def walkStatuses : List (String × FsNode) → List String → Nat × List (String × Nat)
  | [], _ => (0, [])
  | (name, item) :: rest, comps =>
    match item with
    | .file length =>
      let r := walkStatuses rest comps
      (length + r.1, r.2)
    | .dirFail =>
      let c := list_dirs_recursive .dirFail (comps ++ [name])
      let r := walkStatuses rest comps
      (c.1 + r.1, c.2 ++ r.2)
    | .dirOk children =>
      let c := list_dirs_recursive (.dirOk children) (comps ++ [name])
      let r := walkStatuses rest comps
      (c.1 + r.1, c.2 ++ r.2)

end

mutual

/-- The sum of the byte lengths of all FILE entries in a subtree, at any
depth (a directory that fails to list exposes no entries at all). -/
def subtreeBytes : FsNode → Nat
  | .file length => length
  | .dirFail => 0
  | .dirOk statuses => statusesBytes statuses

/-- Sum of `subtreeBytes` over a listing. -/
def statusesBytes : List (String × FsNode) → Nat
  | [] => 0
  | (_, item) :: rest => subtreeBytes item + statusesBytes rest

end

mutual

/-- The successfully listed directories the walk visits, as
(component path, subtree) pairs, in the post-order in which the walk
records their readings. -/
def listedDirs : FsNode → List String → List (List String × FsNode)
  | .file _, _ => []
  | .dirFail, _ => []
  | .dirOk statuses, comps => listedDirsOf statuses comps ++ [(comps, .dirOk statuses)]

/-- Concatenation of `listedDirs` over the children of one listing. -/
def listedDirsOf : List (String × FsNode) → List String → List (List String × FsNode)
  | [], _ => []
  | (name, item) :: rest, comps => listedDirs item (comps ++ [name]) ++ listedDirsOf rest comps

end

/-- Python's string `<=`: lexicographic comparison of the code points. -/
def charListLe : List Char → List Char → Bool
  | [], _ => true
  | _ :: _, [] => false
  | c :: cs, d :: ds =>
    if c.toNat < d.toNat then true
    else if d.toNat < c.toNat then false
    else charListLe cs ds

/-- Python's `a <= b` on strings (code-point lexicographic). -/
def pyLe (a b : String) : Bool := charListLe a.data b.data

instance pyLeDec : DecidableRel (fun a b : String => pyLe a b = true) :=
  fun _ _ => inferInstance

/-- Lines 92–101 (`has_merge_done`): `control` is the result of
`client.list(f"{path}/control")` — `none` when that listing raises (the
exception is caught and the function returns `False`), otherwise the entry
names, of which only the name is ever inspected.  Returns `true` iff some
entry is named exactly `"merge.done"`. -/
def has_merge_done (control : Option (List String)) : Bool :=
  match control with
  | none => false
  | some statuses => statuses.any fun name => name == "merge.done"

/-- What the program can observe of one child of the root path: whether its
`item["type"]` is `"DIRECTORY"`, the listing of `<child>/control` (`none`
when that listing raises), and the tree observable at
`<child>/barrels/current`. -/
structure RootEntry : Type where
  isDir : Bool
  control : Option (List String)
  barrelsCurrent : FsNode

/-- Lines 116–121: the names of the DIRECTORY children of the root whose
`control` listing contains `merge.done`, in listing order. -/
def valid_folders (statuses : List (String × RootEntry)) : List String :=
  (statuses.filter fun p => p.2.isDir && has_merge_done p.2.control).map Prod.fst

/-- Line 127: `sorted(valid_folders)[-1]` — Python's `sorted` is an ascending
stable sort under the code-point order `pyLe`, and `[-1]` takes the last
element; on a list of strings any ascending sorted permutation is the same
list, so `List.insertionSort` computes it.  The surrounding code only reaches
this expression when the list is non-empty. -/
def latest_folder (valid : List String) : String :=
  (List.insertionSort (fun a b => pyLe a b = true) valid).getLastD ""

/-- Lines 116–127 as the Selector contract: the chosen partition name, or
`none` when no candidate is valid. -/
def select_latest (statuses : List (String × RootEntry)) : Option String :=
  if valid_folders statuses = [] then none
  else some (latest_folder (valid_folders statuses))

/-- The tree observable at `f"{root_path}/{latest}/barrels/current"`
(line 128): the `barrelsCurrent` component of the root entry named
`latest`.  The fallback is unreachable because `latest` is drawn from the
names of `statuses`. -/
def selectedTree (statuses : List (String × RootEntry)) (latest : String) : FsNode :=
  match statuses.find? (fun p => p.1 == latest) with
  | some p => p.2.barrelsCurrent
  | none => FsNode.dirFail

/-- The observable outcome of one call of `process_latest_valid_folder`:
whether the `CollectorRegistry`/`Gauge` of lines 112–114 were created, the
`file_size_metric.labels(...).set(...)` calls performed during the walk (the
readings collected in the registry), the batches handed to
`push_to_gateway` (line 134 pushes the registry's collected readings; a push
failure is caught and logged), and the Python function's return value, which
is `None` (`Unit.unit` here) on every path. -/
structure RunTrace : Type where
  registryCreated : Bool
  readingsRecorded : List (String × Nat)
  pushCalls : List (List (String × Nat))
  retVal : Unit

/-- Lines 104–138 (`process_latest_valid_folder`): `rootListing` is the
result of `client.list(root_path)` (`none` when it raises — the function
then logs an error and returns at once).  Otherwise it creates the registry
and gauge, collects the valid folders, returns early when none exist, and
otherwise walks `<root>/<latest>/barrels/current` and attempts one push of
the recorded readings. -/
def process_latest_valid_folder
    (rootListing : Option (List (String × RootEntry))) : RunTrace :=
  match rootListing with
  | none =>
    { registryCreated := false, readingsRecorded := [], pushCalls := [], retVal := () }
  | some statuses =>
    if valid_folders statuses = [] then
      { registryCreated := true, readingsRecorded := [], pushCalls := [], retVal := () }
    else
      let walk := list_dirs_recursive
        (selectedTree statuses (latest_folder (valid_folders statuses))) []
      { registryCreated := true, readingsRecorded := walk.2,
        pushCalls := [walk.2], retVal := () }

/-- The tree of the spec's aggregation scenario: `a/file1` (100 bytes),
`a/b/file2` (50 bytes), `file3` (10 bytes) under the start path. -/
def scenarioTree : FsNode :=
  .dirOk [("a", .dirOk [("file1", .file 100), ("b", .dirOk [("file2", .file 50)])]),
          ("file3", .file 10)]

/-- A tree with an empty intermediate directory `m` next to `x/f` (7 bytes). -/
def emptyMidTree : FsNode :=
  .dirOk [("m", .dirOk []), ("x", .dirOk [("f", .file 7)])]

/-- A start path whose only child `x` is a directory that fails to list. -/
def failChildTree : FsNode := .dirOk [("x", .dirFail)]

/-- The spec's selection scenario: `2024-01-01` has no `control` listing,
`2024-02-01` has `control/merge.done`, `2024-03-01` has a `control` listing
holding only `other.flag`. -/
def scenarioRoot : List (String × RootEntry) :=
  [("2024-01-01", ⟨true, none, .dirFail⟩),
   ("2024-02-01", ⟨true, some ["merge.done"], .dirOk []⟩),
   ("2024-03-01", ⟨true, some ["other.flag"], .dirOk []⟩)]

/-- A root with one completed partition whose `barrels/current` fails to
list. -/
def failWalkRoot : List (String × RootEntry) :=
  [("p", ⟨true, some ["merge.done"], .dirFail⟩)]

/-- Two observable trees that differ only by reordering entries within
listings: `swap` exchanges two adjacent children of one listing, `cons`
rebuilds a listing entrywise (allowing reordering deeper in the tree),
`trans` composes. -/
inductive TreePerm : FsNode → FsNode → Prop where
  | file (length : Nat) : TreePerm (.file length) (.file length)
  | dirFail : TreePerm .dirFail .dirFail
  | nil : TreePerm (.dirOk []) (.dirOk [])
  | cons (name : String) (a b : FsNode) (l₁ l₂ : List (String × FsNode)) :
      TreePerm a b → TreePerm (.dirOk l₁) (.dirOk l₂) →
      TreePerm (.dirOk ((name, a) :: l₁)) (.dirOk ((name, b) :: l₂))
  | swap (x y : String × FsNode) (l : List (String × FsNode)) :
      TreePerm (.dirOk (x :: y :: l)) (.dirOk (y :: x :: l))
  | trans (t₁ t₂ t₃ : FsNode) :
      TreePerm t₁ t₂ → TreePerm t₂ t₃ → TreePerm t₁ t₃

/-- The contribution of one loop iteration of lines 69–76: a non-DIRECTORY
entry adds its length and records nothing; a DIRECTORY entry contributes the
recursive walk's total and readings. -/
def childContribution (name : String) (item : FsNode) (comps : List String) :
    Nat × List (String × Nat) :=
  match item with
  | .file length => (length, [])
  | _ => list_dirs_recursive item (comps ++ [name])

/-- A tree, and the same tree with the two children of the root listing
exchanged. -/
def permTreeA : FsNode := .dirOk [("a", .file 1), ("b", .dirOk [("c", .file 2)])]

/-- The tree `permTreeA` with its root listing reordered. -/
def permTreeB : FsNode := .dirOk [("b", .dirOk [("c", .file 2)]), ("a", .file 1)]

mutual

/-- Structure of the walk: on any DIRECTORY node the returned total is the
sum of all file bytes in the (observable) subtree, and the recorded readings
are exactly one per successfully listed directory, labelled by its relative
path and valued by its subtree byte sum, in post-order. -/
theorem list_dirs_recursive_spec (t : FsNode) (comps : List String) :
    t.isDir = true →
    list_dirs_recursive t comps
      = (subtreeBytes t,
          (listedDirs t comps).map fun pc => (relLabel pc.1, subtreeBytes pc.2)) := by
  match t with
  | .file _ => intro h; exact absurd h (by simp [FsNode.isDir])
  | .dirFail => intro _; simp [list_dirs_recursive, listedDirs, subtreeBytes]
  | .dirOk statuses =>
    intro _
    have ih := walkStatuses_spec statuses comps
    simp [list_dirs_recursive, listedDirs, subtreeBytes, ih]

/-- Structure of the children loop: the accumulated total is the byte sum of
the listing's subtrees, and the recorded readings are those of the DIRECTORY
children, in order. -/
theorem walkStatuses_spec (statuses : List (String × FsNode)) (comps : List String) :
    walkStatuses statuses comps
      = (statusesBytes statuses,
          (listedDirsOf statuses comps).map fun pc => (relLabel pc.1, subtreeBytes pc.2)) := by
  match statuses with
  | [] => simp [walkStatuses, listedDirsOf, statusesBytes]
  | (name, item) :: rest =>
    have ihr := walkStatuses_spec rest comps
    match item with
    | .file length =>
      simp [walkStatuses, listedDirsOf, statusesBytes, subtreeBytes, listedDirs, ihr]
    | .dirFail =>
      have ihc := list_dirs_recursive_spec .dirFail (comps ++ [name]) rfl
      simp [walkStatuses, listedDirsOf, statusesBytes, ihc, ihr]
    | .dirOk children =>
      have ihc := list_dirs_recursive_spec (.dirOk children) (comps ++ [name]) rfl
      simp [walkStatuses, listedDirsOf, statusesBytes, ihc, ihr]

end

theorem charListLe_refl (a : List Char) : charListLe a a = true := by
  induction a with
  | nil => rfl
  | cons c cs ih => simp [charListLe, ih]

theorem charListLe_total (a b : List Char) :
    charListLe a b = true ∨ charListLe b a = true := by
  induction a generalizing b with
  | nil => left; rfl
  | cons c cs ih =>
    cases b with
    | nil => right; rfl
    | cons d ds =>
      rcases Nat.lt_trichotomy c.toNat d.toNat with h | h | h
      · left; simp [charListLe, h]
      · rcases ih ds with h2 | h2
        · left; simp [charListLe, h, h2]
        · right; simp [charListLe, h, h2]
      · right; simp [charListLe, h]

theorem charListLe_trans (a b c : List Char) (hab : charListLe a b = true)
    (hbc : charListLe b c = true) : charListLe a c = true := by
  induction a generalizing b c with
  | nil => rfl
  | cons x xs ih =>
    cases b with
    | nil => simp [charListLe] at hab
    | cons y ys =>
      cases c with
      | nil => simp [charListLe] at hbc
      | cons z zs =>
        have hxy : x.toNat < y.toNat ∨ (x.toNat = y.toNat ∧ charListLe xs ys = true) := by
          by_cases h1 : x.toNat < y.toNat
          · exact Or.inl h1
          · by_cases h2 : y.toNat < x.toNat
            · simp [charListLe, h1, h2] at hab
            · exact Or.inr ⟨by omega, by simpa [charListLe, h1, h2] using hab⟩
        have hyz : y.toNat < z.toNat ∨ (y.toNat = z.toNat ∧ charListLe ys zs = true) := by
          by_cases h1 : y.toNat < z.toNat
          · exact Or.inl h1
          · by_cases h2 : z.toNat < y.toNat
            · simp [charListLe, h1, h2] at hbc
            · exact Or.inr ⟨by omega, by simpa [charListLe, h1, h2] using hbc⟩
        rcases hxy with h1 | ⟨h1, r1⟩ <;> rcases hyz with h2 | ⟨h2, r2⟩
        · simp [charListLe, show x.toNat < z.toNat by omega]
        · simp [charListLe, show x.toNat < z.toNat by omega]
        · simp [charListLe, show x.toNat < z.toNat by omega]
        · simp only [charListLe, show ¬x.toNat < z.toNat by omega, if_false,
            show ¬z.toNat < x.toNat by omega]
          exact ih ys zs r1 r2

theorem sorted_getLastD_max :
    ∀ l : List String, List.Sorted (fun a b => pyLe a b = true) l →
      ∀ d : String, ∀ x ∈ l, pyLe x (l.getLastD d) = true := by
  intro l
  induction l with
  | nil => intro _ d x hx; cases hx
  | cons a tl ih =>
    intro hs d x hx
    rw [List.getLastD_cons]
    rcases List.mem_cons.mp hx with rfl | hx'
    · cases tl with
      | nil => simpa [pyLe, List.getLastD] using charListLe_refl x.data
      | cons b tl' =>
        have hmem := List.getLastD_mem_cons (b :: tl') x
        rcases List.mem_cons.mp hmem with he | hin
        · rw [he]; simpa [pyLe] using charListLe_refl x.data
        · exact List.rel_of_sorted_cons hs _ hin
    · cases tl with
      | nil => cases hx'
      | cons b tl' => exact ih hs.of_cons a x hx'

theorem latest_folder_max (valid : List String) (h : valid ≠ []) :
    latest_folder valid ∈ valid ∧ ∀ m ∈ valid, pyLe m (latest_folder valid) = true := by
  have hperm := List.perm_insertionSort (fun a b : String => pyLe a b = true) valid
  have hsorted := @List.sorted_insertionSort String (fun a b => pyLe a b = true) pyLeDec
    ⟨fun a b => charListLe_total a.data b.data⟩
    ⟨fun a b c => charListLe_trans a.data b.data c.data⟩ valid
  constructor
  · cases hsort : List.insertionSort (fun a b => pyLe a b = true) valid with
    | nil =>
      exact absurd (by rw [hsort] at hperm; exact hperm.symm.eq_nil) h
    | cons a tl =>
      have hmem : latest_folder valid ∈ a :: tl := by
        rw [latest_folder, hsort, List.getLastD_cons]
        exact List.getLastD_mem_cons tl a
      rw [hsort] at hperm
      exact hperm.subset hmem
  · intro m hm
    have hm' : m ∈ List.insertionSort (fun a b : String => pyLe a b = true) valid :=
      hperm.symm.subset hm
    exact sorted_getLastD_max _ hsorted "" m hm'

theorem walkStatuses_append (xs ys : List (String × FsNode)) (comps : List String) :
    walkStatuses (xs ++ ys) comps
      = ((walkStatuses xs comps).1 + (walkStatuses ys comps).1,
         (walkStatuses xs comps).2 ++ (walkStatuses ys comps).2) := by
  induction xs with
  | nil => simp [walkStatuses]
  | cons hd tl ih =>
    obtain ⟨name, item⟩ := hd
    cases item <;> simp [walkStatuses, ih, Nat.add_assoc]

/-- C1: for every observable directory tree, the reading the walk records for
any successfully listed directory equals the sum of the byte lengths of all
FILE entries in that directory's entire subtree (files at any depth; empty
intermediate directories included): the recorded readings are exactly
`(relLabel p, subtreeBytes sub)` for the successfully listed directories
`(p, sub)`, and the returned total is the start tree's subtree byte sum. -/
theorem c1_reading_is_subtree_sum (t : FsNode) (comps : List String)
    (h : t.isDir = true) :
    (list_dirs_recursive t comps).1 = subtreeBytes t ∧
    (list_dirs_recursive t comps).2
      = (listedDirs t comps).map fun pc => (relLabel pc.1, subtreeBytes pc.2) := by
  rw [list_dirs_recursive_spec t comps h]
  exact ⟨rfl, rfl⟩

/-- C1 at a concrete tree with an empty intermediate directory. -/
theorem c1_reading_is_subtree_sum_witness :
    emptyMidTree.isDir = true ∧
    ((list_dirs_recursive emptyMidTree []).1 = subtreeBytes emptyMidTree ∧
     (list_dirs_recursive emptyMidTree []).2
       = (listedDirs emptyMidTree []).map fun pc => (relLabel pc.1, subtreeBytes pc.2)) :=
  ⟨rfl, c1_reading_is_subtree_sum emptyMidTree [] rfl⟩

/-- C2 as stated is false on the code: when the listing of `<start>/x`
fails, `list_dirs_recursive` returns 0 *before* reaching the
`file_size_metric...set` call, so no reading at all is recorded for that
directory — the claim demands exactly one reading `("/x", 0)`.  On the tree
whose only child `x` fails to list, the output holds the single reading for
`"/"` and no reading labelled `"/x"`. -/
theorem c2_counterexample :
    (list_dirs_recursive failChildTree []).2 = [("/", 0)] ∧
    ((list_dirs_recursive failChildTree []).2.filter fun r => r.1 == "/x").length = 0 := by
  decide

/-- C2 amended: for every directory whose listing fails during aggregation,
the aggregator records *no* reading for that directory, returns 0 to its
caller so ancestors count that subtree as 0, and the walk over siblings and
the rest of the tree continues unaffected — the parent's loop treats the
failed entry exactly like a zero-length file. -/
theorem c2_failed_listing (pre post : List (String × FsNode)) (name : String)
    (comps oComps : List String) :
    list_dirs_recursive .dirFail oComps = (0, []) ∧
    walkStatuses (pre ++ (name, .dirFail) :: post) comps
      = walkStatuses (pre ++ (name, .file 0) :: post) comps := by
  refine ⟨rfl, ?_⟩
  rw [walkStatuses_append, walkStatuses_append]
  simp [walkStatuses, list_dirs_recursive]

/-- C4: the aggregator labels the start path itself `"/"` and labels every
other visited directory `"/"` plus its path relative to the start path, the
components joined by forward slashes with backslashes normalized. -/
theorem c4_labels (t : FsNode) (comps : List String)
    (h : t.isDir = true) (hc : comps ≠ []) :
    (list_dirs_recursive t []).2.map Prod.fst
      = (listedDirs t []).map (fun pc => relLabel pc.1) ∧
    relLabel [] = "/" ∧
    relLabel comps = "/" ++ String.intercalate "/" (comps.map normSlash) := by
  refine ⟨?_, rfl, by simp [relLabel, hc]⟩
  rw [list_dirs_recursive_spec t [] h]
  simp

/-- C4 at a concrete tree and a concrete non-root component path. -/
theorem c4_labels_witness :
    emptyMidTree.isDir = true ∧ (["a", "b"] : List String) ≠ [] ∧
    ((list_dirs_recursive emptyMidTree []).2.map Prod.fst
       = (listedDirs emptyMidTree []).map (fun pc => relLabel pc.1) ∧
     relLabel [] = "/" ∧
     relLabel ["a", "b"] = "/" ++ String.intercalate "/" (["a", "b"].map normSlash)) :=
  ⟨rfl, by decide, c4_labels emptyMidTree ["a", "b"] rfl (by decide)⟩

/-- C5: on the scenario tree (`a/file1` 100 bytes, `a/b/file2` 50 bytes,
`file3` 10 bytes) the walk returns 160 and records exactly the three
readings `"/a/b" = 50`, `"/a" = 150`, `"/" = 160`; the file directly under
the start path contributes to the total but yields no reading of its own. -/
theorem c5_scenario :
    list_dirs_recursive scenarioTree []
      = (160, [("/a/b", 50), ("/a", 150), ("/", 160)]) ∧
    (list_dirs_recursive scenarioTree []).2.map Prod.fst = ["/a/b", "/a", "/"] := by
  decide

theorem has_merge_done_iff (c : Option (List String)) :
    has_merge_done c = true ↔ ∃ l, c = some l ∧ "merge.done" ∈ l := by
  cases c with
  | none => simp [has_merge_done]
  | some l =>
    simp only [has_merge_done, List.any_eq_true, beq_iff_eq, Option.some.injEq]
    constructor
    · rintro ⟨x, hx, rfl⟩; exact ⟨l, rfl, hx⟩
    · rintro ⟨l', rfl, hl⟩; exact ⟨_, hl, rfl⟩

/-- C3: whenever the selector returns a partition name, that name belongs to
the valid candidates and is maximal among them in Python's code-point
lexicographic string order (`pyLe`); and a name is a valid candidate exactly
when some root entry carries it, is a DIRECTORY, and has a `control` listing
that succeeds and contains an entry named exactly `merge.done` — candidates
without a listable control subpath, or whose control listing lacks that
name, are excluded regardless of how their names order. -/
theorem c3_selects_lexicographic_max (statuses : List (String × RootEntry)) (n : String)
    (hsel : select_latest statuses = some n) :
    (n ∈ valid_folders statuses ∧ ∀ m ∈ valid_folders statuses, pyLe m n = true) ∧
    (∀ m : String, m ∈ valid_folders statuses ↔
        ∃ e : RootEntry, (m, e) ∈ statuses ∧ e.isDir = true ∧
          ∃ l, e.control = some l ∧ "merge.done" ∈ l) := by
  constructor
  · by_cases hv : valid_folders statuses = []
    · simp [select_latest, hv] at hsel
    · simp only [select_latest, hv, if_false, Option.some.injEq] at hsel
      rw [← hsel]
      exact latest_folder_max _ hv
  · intro m
    constructor
    · intro hm
      obtain ⟨p, hpf, hpm⟩ := List.mem_map.mp hm
      obtain ⟨hps, hf⟩ := List.mem_filter.mp hpf
      obtain ⟨hd, hmd⟩ : p.2.isDir = true ∧ has_merge_done p.2.control = true := by
        simpa using hf
      obtain ⟨l, hc, hl⟩ := (has_merge_done_iff _).mp hmd
      exact ⟨p.2, by rw [← hpm]; simpa using hps, hd, l, hc, hl⟩
    · rintro ⟨e, he, hd, l, hc, hl⟩
      apply List.mem_map.mpr
      refine ⟨(m, e), List.mem_filter.mpr ⟨he, ?_⟩, rfl⟩
      simp [hd, (has_merge_done_iff e.control).mpr ⟨l, hc, hl⟩]

/-- C3 on the spec's scenario: among `2024-01-01` (no control listing),
`2024-02-01` (has `control/merge.done`), `2024-03-01` (control holds only
`other.flag`), the selector picks `2024-02-01`. -/
theorem c3_selects_lexicographic_max_witness :
    select_latest scenarioRoot = some "2024-02-01" ∧
    (("2024-02-01" ∈ valid_folders scenarioRoot ∧
        ∀ m ∈ valid_folders scenarioRoot, pyLe m "2024-02-01" = true) ∧
     (∀ m : String, m ∈ valid_folders scenarioRoot ↔
        ∃ e : RootEntry, (m, e) ∈ scenarioRoot ∧ e.isDir = true ∧
          ∃ l, e.control = some l ∧ "merge.done" ∈ l)) :=
  ⟨by decide, c3_selects_lexicographic_max scenarioRoot "2024-02-01" (by decide)⟩

/-- C7: a failure to list a candidate's control subpath (the caught
exception branch, modelled as `control = none`) makes `has_merge_done`
return `false`: the candidate is invalid and is filtered out exactly like a
directory lacking `merge.done`, and the run is not aborted — the remaining
candidates' validity is unchanged. -/
theorem c7_control_failure (c : Option (List String))
    (statuses : List (String × RootEntry)) (name : String) (e : RootEntry)
    (hc : c = none) (he : e.control = none) :
    has_merge_done c = false ∧
    valid_folders ((name, e) :: statuses) = valid_folders statuses := by
  subst hc
  refine ⟨rfl, ?_⟩
  simp [valid_folders, List.filter_cons, has_merge_done, he]

/-- C7 at a concrete candidate prepended to the scenario root. -/
theorem c7_control_failure_witness :
    (none : Option (List String)) = none ∧
    (⟨true, none, FsNode.dirFail⟩ : RootEntry).control = none ∧
    (has_merge_done none = false ∧
     valid_folders (("d", ⟨true, none, FsNode.dirFail⟩) :: scenarioRoot)
       = valid_folders scenarioRoot) :=
  ⟨rfl, rfl, c7_control_failure none scenarioRoot "d" ⟨true, none, FsNode.dirFail⟩ rfl rfl⟩

/-- C8: when no directory under the root satisfies the `merge.done`
condition, the run returns early: no reading is ever recorded (the metrics
batch stays empty) and no push is attempted. -/
theorem c8_no_valid_no_push (statuses : List (String × RootEntry))
    (h : valid_folders statuses = []) :
    process_latest_valid_folder (some statuses)
      = { registryCreated := true, readingsRecorded := [], pushCalls := [],
          retVal := () } := by
  simp [process_latest_valid_folder, h]

/-- C8 at a root whose single directory lacks `merge.done`. -/
theorem c8_no_valid_no_push_witness :
    valid_folders [("d", ⟨true, some ["other.flag"], FsNode.dirFail⟩)] = [] ∧
    process_latest_valid_folder (some [("d", ⟨true, some ["other.flag"], FsNode.dirFail⟩)])
      = { registryCreated := true, readingsRecorded := [], pushCalls := [],
          retVal := () } :=
  ⟨by decide, c8_no_valid_no_push _ (by decide)⟩

/-- C6 as stated is false on the code: `process_latest_valid_folder` ends
every path with a bare `return`, so the "skipped" outcome is not
distinguished from the others by any returned status — runs with different
outcomes (no eligible partition and no push, vs. a push of a metrics batch)
return the identical value `None`. -/
theorem c6_counterexample :
    (process_latest_valid_folder (some [])).retVal
      = (process_latest_valid_folder
          (some [("p", ⟨true, some ["merge.done"], FsNode.dirOk []⟩)])).retVal ∧
    (process_latest_valid_folder (some [])).pushCalls = [] ∧
    (process_latest_valid_folder
        (some [("p", ⟨true, some ["merge.done"], FsNode.dirOk []⟩)])).pushCalls ≠ [] :=
  ⟨rfl, by decide, by decide⟩

/-- C6 amended: the three outcomes are distinguished by their observable
effects, not by the return value: a root-listing failure aborts before the
registry is created and pushes nothing; an ok listing always creates the
registry, and pushes exactly one batch — the recorded readings — iff some
eligible partition exists; the return value is `None` in every case. -/
theorem c6_outcomes (statuses : List (String × RootEntry)) :
    (process_latest_valid_folder none).registryCreated = false ∧
    (process_latest_valid_folder none).pushCalls = [] ∧
    (process_latest_valid_folder (some statuses)).registryCreated = true ∧
    (process_latest_valid_folder (some statuses)).pushCalls
      = (if valid_folders statuses = [] then []
         else [(process_latest_valid_folder (some statuses)).readingsRecorded]) ∧
    (process_latest_valid_folder (some statuses)).retVal
      = (process_latest_valid_folder none).retVal := by
  by_cases hv : valid_folders statuses = [] <;>
    simp [process_latest_valid_folder, hv]

/-- C10: once a valid partition is selected the push is always attempted —
the pushed batch is exactly the readings the walk recorded — and when the
listing of the selected partition's `barrels/current` itself fails the walk
records no readings, so the push is performed on an empty batch. -/
theorem c10_push_on_failed_walk (statuses : List (String × RootEntry))
    (h : valid_folders statuses ≠ [])
    (hfail : selectedTree statuses (latest_folder (valid_folders statuses)) = .dirFail) :
    (process_latest_valid_folder (some statuses)).pushCalls
      = [(process_latest_valid_folder (some statuses)).readingsRecorded] ∧
    (process_latest_valid_folder (some statuses)).readingsRecorded = [] ∧
    (process_latest_valid_folder (some statuses)).pushCalls = [[]] := by
  simp [process_latest_valid_folder, h, hfail, list_dirs_recursive]

/-- C10 at a root whose completed partition has a failing
`barrels/current`. -/
theorem c10_push_on_failed_walk_witness :
    valid_folders failWalkRoot ≠ [] ∧
    selectedTree failWalkRoot (latest_folder (valid_folders failWalkRoot)) = .dirFail ∧
    ((process_latest_valid_folder (some failWalkRoot)).pushCalls
       = [(process_latest_valid_folder (some failWalkRoot)).readingsRecorded] ∧
     (process_latest_valid_folder (some failWalkRoot)).readingsRecorded = [] ∧
     (process_latest_valid_folder (some failWalkRoot)).pushCalls = [[]]) :=
  ⟨by decide, rfl, c10_push_on_failed_walk failWalkRoot (by decide) rfl⟩

theorem list_dirs_recursive_dirOk (statuses : List (String × FsNode)) (comps : List String) :
    list_dirs_recursive (.dirOk statuses) comps
      = ((walkStatuses statuses comps).1,
         (walkStatuses statuses comps).2
           ++ [(relLabel comps, (walkStatuses statuses comps).1)]) := by
  simp [list_dirs_recursive]

theorem walkStatuses_cons (name : String) (item : FsNode)
    (rest : List (String × FsNode)) (comps : List String) :
    walkStatuses ((name, item) :: rest) comps
      = ((childContribution name item comps).1 + (walkStatuses rest comps).1,
         (childContribution name item comps).2 ++ (walkStatuses rest comps).2) := by
  cases item <;> simp [walkStatuses, childContribution, list_dirs_recursive]

theorem treePerm_fileTag {t₁ t₂ : FsNode} (h : TreePerm t₁ t₂) :
    fileTag t₁ = fileTag t₂ := by
  induction h with
  | file _ => rfl
  | dirFail => rfl
  | nil => rfl
  | cons name a b l₁ l₂ hab hll iha ihl => rfl
  | swap x y l => rfl
  | trans t₁ t₂ t₃ h₁ h₂ ih₁ ih₂ => exact ih₁.trans ih₂

theorem treePerm_isFailedDir {t₁ t₂ : FsNode} (h : TreePerm t₁ t₂) :
    isFailedDir t₁ = isFailedDir t₂ := by
  induction h with
  | file _ => rfl
  | dirFail => rfl
  | nil => rfl
  | cons name a b l₁ l₂ hab hll iha ihl => rfl
  | swap x y l => rfl
  | trans t₁ t₂ t₃ h₁ h₂ ih₁ ih₂ => exact ih₁.trans ih₂

theorem treePerm_agg {t₁ t₂ : FsNode} (hp : TreePerm t₁ t₂) :
    ∀ comps : List String,
      (list_dirs_recursive t₁ comps).1 = (list_dirs_recursive t₂ comps).1 ∧
      ((list_dirs_recursive t₁ comps).2).Perm ((list_dirs_recursive t₂ comps).2) := by
  induction hp with
  | file _ => exact fun comps => ⟨rfl, List.Perm.refl _⟩
  | dirFail => exact fun comps => ⟨rfl, List.Perm.refl _⟩
  | nil => exact fun comps => ⟨rfl, List.Perm.refl _⟩
  | cons name a b l₁ l₂ hab hll iha ihl =>
    intro comps
    have hwt : (walkStatuses l₁ comps).1 = (walkStatuses l₂ comps).1 := by
      have h := (ihl comps).1
      rw [list_dirs_recursive_dirOk, list_dirs_recursive_dirOk] at h
      exact h
    have hwr : ((walkStatuses l₁ comps).2).Perm ((walkStatuses l₂ comps).2) := by
      have h := (ihl comps).2
      rw [list_dirs_recursive_dirOk, list_dirs_recursive_dirOk, hwt] at h
      exact (((List.perm_append_singleton _ _).symm.trans h).trans
        (List.perm_append_singleton _ _)).cons_inv
    have hc : (childContribution name a comps).1 = (childContribution name b comps).1 ∧
        ((childContribution name a comps).2).Perm ((childContribution name b comps).2) := by
      cases a with
      | file len =>
        have hb : fileTag b = some len := by rw [← treePerm_fileTag hab]; rfl
        cases b with
        | file len' =>
          simp only [fileTag, Option.some.injEq] at hb
          subst hb
          exact ⟨rfl, List.Perm.refl _⟩
        | dirFail => simp [fileTag] at hb
        | dirOk _ => simp [fileTag] at hb
      | dirFail =>
        have hb : isFailedDir b = true := by rw [← treePerm_isFailedDir hab]; rfl
        cases b with
        | file _ => simp [isFailedDir] at hb
        | dirFail => exact ⟨rfl, List.Perm.refl _⟩
        | dirOk _ => simp [isFailedDir] at hb
      | dirOk ch₁ =>
        have hb1 := treePerm_fileTag hab
        have hb2 := treePerm_isFailedDir hab
        cases b with
        | file _ => simp [fileTag] at hb1
        | dirFail => simp [isFailedDir] at hb2
        | dirOk ch₂ => simpa [childContribution] using iha (comps ++ [name])
    rw [list_dirs_recursive_dirOk, list_dirs_recursive_dirOk,
      walkStatuses_cons, walkStatuses_cons]
    constructor
    · rw [hc.1, hwt]
    · rw [hc.1, hwt]
      exact (hc.2.append hwr).append (List.Perm.refl _)
  | swap x y l =>
    intro comps
    obtain ⟨nx, ix⟩ := x
    obtain ⟨ny, iy⟩ := y
    simp only [list_dirs_recursive_dirOk, walkStatuses_cons]
    constructor
    · omega
    · have htot : (childContribution nx ix comps).1
          + ((childContribution ny iy comps).1 + (walkStatuses l comps).1)
            = (childContribution ny iy comps).1
          + ((childContribution nx ix comps).1 + (walkStatuses l comps).1) := by omega
      rw [htot]
      refine List.Perm.append ?_ (List.Perm.refl _)
      rw [← List.append_assoc, ← List.append_assoc]
      exact List.perm_append_comm.append_right _
  | trans t₁ t₂ t₃ h₁ h₂ ih₁ ih₂ =>
    intro comps
    exact ⟨(ih₁ comps).1.trans (ih₂ comps).1, (ih₁ comps).2.trans (ih₂ comps).2⟩

/-- C9: reordering the children inside any listings of the tree leaves the
walk's result unchanged: the returned total is equal, and the recorded
readings are a permutation of one another — in particular the same set of
(label, total) readings. -/
theorem c9_permutation_invariant (t₁ t₂ : FsNode) (comps : List String)
    (hp : TreePerm t₁ t₂) :
    (list_dirs_recursive t₁ comps).1 = (list_dirs_recursive t₂ comps).1 ∧
    ((list_dirs_recursive t₁ comps).2).Perm ((list_dirs_recursive t₂ comps).2) ∧
    ((list_dirs_recursive t₁ comps).2).toFinset
      = ((list_dirs_recursive t₂ comps).2).toFinset := by
  obtain ⟨h1, h2⟩ := treePerm_agg hp comps
  exact ⟨h1, h2, List.toFinset_eq_of_perm _ _ h2⟩

/-- C9 at a concrete pair of trees differing by one swap of root children. -/
theorem c9_permutation_invariant_witness :
    TreePerm permTreeA permTreeB ∧
    ((list_dirs_recursive permTreeA []).1 = (list_dirs_recursive permTreeB []).1 ∧
     ((list_dirs_recursive permTreeA []).2).Perm ((list_dirs_recursive permTreeB []).2) ∧
     ((list_dirs_recursive permTreeA []).2).toFinset
       = ((list_dirs_recursive permTreeB []).2).toFinset) :=
  ⟨TreePerm.swap ("a", .file 1) ("b", .dirOk [("c", .file 2)]) [],
   c9_permutation_invariant permTreeA permTreeB []
     (TreePerm.swap ("a", .file 1) ("b", .dirOk [("c", .file 2)]) [])⟩

end DiskUsage
